import Mathlib

/-!
The JSON scene writer of OpenRAVE

A shallow embedding of `src/libopenrave-core/jsonparser/jsonwriter.cpp`:
the class `EnvironmentJSONWriter` (constructor, `Write`, `_Write`,
`_CanonicalizeURI`) and the stream, memory and encrypted entry points for a
list of bodies.

Conventions of the embedding.

* `std::string` is `String`; a byte buffer or output stream is the `String`
  of what has been written to it so far.
* `dReal` values are only stored, copied, compared and replaced by the
  constant zero by this file, never computed with, so they are carried as
  integers.
* A `KinBodyPtr` is an address into the scene; two list entries may alias.
* `rapidjson::Value` is the tree type `rapidjson.Value`; an object is the
  list of its members in insertion order.
* Code that throws or fails an assertion returns `Except.error`.
* Collaborators whose code is in other files of the library are either
  parameters (the record `Collaborators`) or small models marked
  "Modelled from the spec".
-/

namespace OpenRAVE

/-! ## Strings and URIs -/

/-- Modelled from the spec: `RemoveSuffix` of `stringutils.h` is not part of
the translated file. Section 4.3: "if path ends with a specific legacy
geometry-file suffix, strip that suffix". The C++ helper edits its first
argument in place and returns whether it did; here the flag and the new
string are returned together. -/
def RemoveSuffix (s suffix : String) : Bool × String :=
  if suffix.data.isSuffixOf s.data then
    (true, ⟨s.data.take (s.data.length - suffix.data.length)⟩)
  else (false, s)

/-- Modelled from the spec: `ParseURI` of `jsoncommon.h` is not part of the
translated file. Section 3: a reference is the triple (scheme, path,
fragment) "parsed from and re-serialized to a single string
scheme:path#fragment". The fragment is what follows the last `#`, the scheme
what precedes the first `:` of the rest; a component whose separator is
missing stays empty. It is used for concrete runs only: the theorems about
`_CanonicalizeURI` hold for every parser. -/
def ParseURI (uri : String) : String × String × String :=
  let all := uri.data
  let (path, fragment) :=
    if '#' ∈ all then
      (((all.reverse.dropWhile (· != '#')).drop 1).reverse,
        (all.reverse.takeWhile (· != '#')).reverse)
    else (all, [])
  if ':' ∈ path then
    (⟨path.takeWhile (· != ':')⟩, ⟨(path.dropWhile (· != ':')).drop 1⟩, ⟨fragment⟩)
  else ("", ⟨path⟩, ⟨fragment⟩)

/-- Modelled from the spec: `RaveInvertFileLookup` is not part of the
translated file. Section 4.3: it "maps an absolute path back to a
root-relative path, analogous to inverting a root + relative → absolute
join". This instance knows one search root. It is used for concrete runs
only: the theorems about `_CanonicalizeURI` hold for every lookup. -/
def invertUnderRoot (root : String) (path : String) : Option String :=
  if (root.data ++ ['/']).isPrefixOf path.data then
    some ⟨path.data.drop (root.data.length + 1)⟩
  else none

/-- The forced-scheme step of `_CanonicalizeURI` (source lines 166-173):
the pair (scheme, path) after the root-relative lookup. -/
def forceResolve (invertFileLookup : String → Option String)
    (_vForceResolveOpenRAVEScheme : String) (scheme path : String) : String × String :=
  if 0 < _vForceResolveOpenRAVEScheme.length ∧ scheme = "file" then
    match invertFileLookup path with
    | some filename => (_vForceResolveOpenRAVEScheme, "/" ++ filename)
    | none => (scheme, path)
  else (scheme, path)

/-- The extension step of `_CanonicalizeURI` (source lines 179-181):
`if (RemoveSuffix(path, ".dae")) path += ".json"`. -/
def fixExtension (path : String) : String :=
  match RemoveSuffix path ".dae" with
  | (true, stripped) => stripped ++ ".json"
  | (false, kept) => kept

/-- The reassembly step of `_CanonicalizeURI` (source lines 183-187). -/
def assembleURI (scheme path fragment : String) : String :=
  let newuri := scheme ++ ":" ++ path
  if 0 < fragment.length then newuri ++ ("#" ++ fragment) else newuri

/-- The three components `_CanonicalizeURI` reassembles for a non-empty
`uri` (source lines 163-181). -/
def canonicalParts (parseURI : String → String × String × String)
    (invertFileLookup : String → Option String)
    (_vForceResolveOpenRAVEScheme : String) (uri : String) : String × String × String :=
  let (scheme, path, fragment) := parseURI uri
  let (scheme, path) := forceResolve invertFileLookup _vForceResolveOpenRAVEScheme scheme path
  (scheme, fixExtension path, fragment)

/-- Translation of `EnvironmentJSONWriter::_CanonicalizeURI` (source lines 158-188). The
member `_vForceResolveOpenRAVEScheme` and the two collaborators `ParseURI`
and `RaveInvertFileLookup` are arguments. -/
def _CanonicalizeURI (parseURI : String → String × String × String)
    (invertFileLookup : String → Option String)
    (_vForceResolveOpenRAVEScheme : String) (uri : String) : String :=
  if uri = "" then uri
  else
    let (scheme, path, fragment) :=
      canonicalParts parseURI invertFileLookup _vForceResolveOpenRAVEScheme uri
    assembleURI scheme path fragment


/-! ## Failure -/

/-- The ways the translated code leaves a call without returning. -/
inductive Fatal where
  /-- A failed `BOOST_ASSERT` or `RAPIDJSON_ASSERT`; the text is the asserted
  expression. The assertion is taken as an active check. -/
  | assertion (expr : String)
  /-- An exception thrown by a body accessor, as `GetJointFromDOFIndex` does
  for an index no joint owns. -/
  | exception (what : String)
deriving DecidableEq

/-! ## The document tree -/

/-- Scalar carrier of `dReal`. -/
abbrev dReal := Int

end OpenRAVE

namespace rapidjson

/-- The tree `rapidjson::Value`: an object keeps its members in insertion
order and may hold a key more than once, as in the library. -/
inductive Value where
  | null
  | int (i : Int)
  | real (x : OpenRAVE.dReal)
  | string (s : String)
  | array (elements : List Value)
  | object (members : List (String × Value))

namespace Value

open OpenRAVE

/-- Library call `Value::SetObject()`: the value becomes an empty object. -/
def SetObject (_v : Value) : Value := object []

/-- Library call `Value::SetArray()`: the value becomes an empty array. -/
def SetArray (_v : Value) : Value := array []

/-- Library call `Value::PushBack`: asserts `IsArray()`. -/
def PushBack (v x : Value) : Except Fatal Value :=
  match v with
  | array elements => .ok (array (elements ++ [x]))
  | _ => .error (.assertion "IsArray()")

/-- Library call `Value::AddMember`: asserts `IsObject()` and appends, whether or not the
key is already there. -/
def AddMember (v : Value) (key : String) (x : Value) : Except Fatal Value :=
  match v with
  | object members => .ok (object (members ++ [(key, x)]))
  | _ => .error (.assertion "IsObject()")

/-- Library call `Value::MemberCount`: asserts `IsObject()`. -/
def MemberCount (v : Value) : Except Fatal Nat :=
  match v with
  | object members => .ok members.length
  | _ => .error (.assertion "IsObject()")

/-- Library call `Value::Size`: asserts `IsArray()`. -/
def Size (v : Value) : Except Fatal Nat :=
  match v with
  | array elements => .ok elements.length
  | _ => .error (.assertion "IsArray()")

/-- The first member stored under `key` in a member list. -/
def findIn (key : String) : List (String × Value) → Option Value
  | [] => none
  | (k, x) :: rest => if k = key then some x else findIn key rest

/-- Library call `Value::FindMember`: the first member stored under `key`, `none` for
`MemberEnd()` and for a value that is no object. -/
def FindMember (v : Value) (key : String) : Option Value :=
  match v with
  | object members => findIn key members
  | _ => none

/-- Library call `Value::HasMember`. -/
def HasMember (v : Value) (key : String) : Bool := (v.FindMember key).isSome

end Value

end rapidjson

namespace OpenRAVE

open rapidjson

/-- Replace the value of the first member stored under `key`, or append a
new member when there is none. -/
def setMember (key : String) (t : Value) : List (String × Value) → List (String × Value)
  | [] => [(key, t)]
  | (k, x) :: rest => if k = key then (k, t) :: rest else (k, x) :: setMember key t rest

/-- Modelled from the spec: `orjson::SetJsonValueByKey` of `openravejson.h`
is not part of the translated file. A value that is no object is first made
an empty object; the member stored under `key` is overwritten if there is
one and added otherwise, so that the field is "emitted" once. -/
def SetJsonValueByKey (v : Value) (key : String) (t : Value) : Value :=
  match v with
  | .object members => .object (setMember key t members)
  | _ => .object [(key, t)]

/-! ## The scene -/

/-- Modelled from the spec: `Transform` is declared in a header that is not
part of the translated file. Section 3: a root pose is "position +
orientation"; here a rotation quaternion and a translation. -/
structure Transform where
  rot : dReal × dReal × dReal × dReal
  trans : dReal × dReal × dReal
deriving DecidableEq

/-- Modelled from the spec: the default-constructed `Transform()`. Section
4.2, step 2: "the root transform to identity". -/
def Transform.identity : Transform := ⟨(1, 0, 0, 0), (0, 0, 0)⟩

/-- Modelled from the spec: how `SetJsonValueByKey` stores a `Transform` is
not part of the translated file. Section 6: `"transform":
[qw,qx,qy,qz,tx,ty,tz]`. -/
def SaveJsonValue (t : Transform) : Value :=
  .array [.real t.rot.1, .real t.rot.2.1, .real t.rot.2.2.1, .real t.rot.2.2.2,
    .real t.trans.1, .real t.trans.2.1, .real t.trans.2.2]

/-- Modelled from the spec: a joint of a body. Glossary: "a joint may own
multiple DOFs (axes)"; `values` holds the current value of each axis the
joint owns, in axis order. -/
structure Joint where
  _name : String
  values : List dReal
deriving DecidableEq

/-- What a `JointPtr` obtained from a body gives access to: the joint and
the base index of its degrees of freedom in the body. -/
structure JointPtr where
  joint : Joint
  dofindex : Nat
deriving DecidableEq

/-- Modelled from the spec: `Joint::GetName`, "the owning joint's name". -/
def JointPtr.GetName (pJoint : JointPtr) : String := pJoint.joint._name

/-- Modelled from the spec: `Joint::GetDOFIndex`, "the joint's base DOF
index". -/
def JointPtr.GetDOFIndex (pJoint : JointPtr) : Nat := pJoint.dofindex

/-- Modelled from the spec: a grab-relation descriptor
(`KinBody::GrabbedInfo`, not part of the translated file); its content is
only handed to its serializer. -/
structure GrabbedInfo where
  _grabbedname : String
  _robotlinkname : String
deriving DecidableEq

/-- Modelled from the spec: a connected-body sub-structure of a robot (not
part of the translated file); the writer touches its `_uri` only. -/
structure ConnectedBodyInfo where
  _name : String
  _uri : String
deriving DecidableEq

/-- Address of an environment; `GetEnv() == penv` compares addresses. -/
abbrev EnvironmentBasePtr := Nat

/-- Address of a scene member. -/
abbrev KinBodyPtr := Nat

/-- Modelled from the spec: the state of one scene member as this writer
reads and writes it. Nothing of class `KinBody` is part of the translated
file; the fields are what sections 3 and 4.2 name: owning environment,
plain body or robot, resource reference, connected bodies, joints with
their axis values, root pose, grabbed descriptors. -/
structure KinBody where
  env : EnvironmentBasePtr
  robot : Bool
  _name : String
  _referenceUri : String
  _vConnectedBodyInfos : List ConnectedBodyInfo
  _vecjoints : List Joint
  _transform : Transform
  _vGrabbedInfo : List GrabbedInfo
deriving DecidableEq

namespace KinBody

/-- Modelled from the spec: `KinBody::GetEnv`, the owning environment the
member reports. -/
def GetEnv (b : KinBody) : EnvironmentBasePtr := b.env

/-- Modelled from the spec: `KinBody::IsRobot`, plain body or articulated
robot. -/
def IsRobot (b : KinBody) : Bool := b.robot

/-- Modelled from the spec: `KinBody::GetDOF`, the number of degrees of
freedom, one per axis of each joint. -/
def GetDOF (b : KinBody) : Nat := (b._vecjoints.map fun j => j.values.length).sum

/-- Modelled from the spec: `KinBody::GetDOFValues`, the axis values of all
joints in DOF-index order. -/
def GetDOFValues (b : KinBody) : List dReal := (b._vecjoints.map fun j => j.values).flatten

/-- Modelled from the spec: the work of `SetDOFValues`. The entries of a DOF
vector go to the joints in order, each joint taking as many as it has
axes. -/
def distribute : List Joint → List dReal → List Joint
  | [], _ => []
  | j :: rest, v =>
    { j with values := v.take j.values.length } :: distribute rest (v.drop j.values.length)

/-- Modelled from the spec: `KinBody::SetDOFValues(values, CLA_Nothing)`;
section 4.2, step 2 uses it to "force all degrees of freedom to zero". -/
def SetDOFValues (b : KinBody) (v : List dReal) : KinBody :=
  { b with _vecjoints := distribute b._vecjoints v }

/-- Modelled from the spec: `KinBody::GetTransform`, the current root pose. -/
def GetTransform (b : KinBody) : Transform := b._transform

/-- Modelled from the spec: `KinBody::SetTransform`, replacing the root
pose. -/
def SetTransform (b : KinBody) (t : Transform) : KinBody := { b with _transform := t }

/-- Modelled from the spec: `KinBody::GetGrabbedInfo`, "the member's list
of grabbed-object descriptors". -/
def GetGrabbedInfo (b : KinBody) : List GrabbedInfo := b._vGrabbedInfo

/-- Modelled from the spec: the search behind `GetJointFromDOFIndex`. Walk
the joints for the owner of DOF `iDOF`; `base` is the DOF index of the
first joint of the list. -/
def ownerFrom : List Joint → Nat → Nat → Option JointPtr
  | [], _, _ => none
  | j :: rest, base, iDOF =>
    if iDOF < base + j.values.length then some ⟨j, base⟩
    else ownerFrom rest (base + j.values.length) iDOF

/-- Modelled from the spec: `KinBody::GetJointFromDOFIndex`, "the owning
joint" of a DOF index; `none` where the C++ accessor throws. -/
def GetJointFromDOFIndex (b : KinBody) (iDOF : Nat) : Option JointPtr :=
  ownerFrom b._vecjoints 0 iDOF

end KinBody

/-- Modelled from the spec: an environment as the writer reads it, its
"linear-unit identifier, a string token". -/
structure EnvironmentBase where
  _unit : String
deriving DecidableEq

/-- Modelled from the spec: `EnvironmentBase::GetUnit`. -/
def EnvironmentBase.GetUnit (env : EnvironmentBase) : String := env._unit

/-- The live scene the writer borrows: what each environment address and
each member address currently holds. -/
structure Scene where
  envs : EnvironmentBasePtr → EnvironmentBase
  bodies : KinBodyPtr → KinBody

/-- Replace the state of the member at `p`. -/
def Scene.store (scene : Scene) (p : KinBodyPtr) (b : KinBody) : Scene :=
  { scene with bodies := Function.update scene.bodies p b }

/-- Modelled from the spec: `KinBody::KinBodyStateSaver` is not part of the
translated file. Section 4.2, step 1: "acquire a save-point for the
member's full state (pose + all degree-of-freedom values + any other
mutable simulation state the model exposes)". -/
structure KinBodyStateSaver where
  _pbody : KinBodyPtr
  saved : KinBody

/-- Modelled from the spec: the constructor of the saver captures the
current state of the member. -/
def KinBodyStateSaver.ctor (scene : Scene) (pBody : KinBodyPtr) : KinBodyStateSaver :=
  ⟨pBody, scene.bodies pBody⟩

/-- Modelled from the spec: the destructor of the saver, run at the end of
its scope, puts the captured state back (section 4.2, step 4). -/
def KinBodyStateSaver.dtor (saver : KinBodyStateSaver) (scene : Scene) : Scene :=
  scene.store saver._pbody saver.saved

/-- Modelled from the spec: the structural description of a plain body as
`ExtractInfo` fills it (`KinBodyInfo` is not part of the translated file).
The writer reads and rewrites `_referenceUri`; everything else the
description holds is read from the member in the state it has at
extraction, kept here as `extractedFrom`. -/
structure KinBodyInfo where
  _referenceUri : String
  extractedFrom : KinBody

/-- Modelled from the spec: the structural description of a robot, as
`KinBodyInfo`, with the "nested connected-body sub-references". -/
structure RobotBaseInfo where
  _referenceUri : String
  _vConnectedBodyInfos : List ConnectedBodyInfo
  extractedFrom : KinBody

/-- Modelled from the spec: `KinBody::ExtractInfo`, reading the member in
its current state. -/
def KinBody.ExtractInfo (b : KinBody) : KinBodyInfo :=
  ⟨b._referenceUri, b⟩

/-- Modelled from the spec: `RobotBase::ExtractInfo`, reading the member in
its current state. -/
def KinBody.ExtractRobotInfo (b : KinBody) : RobotBaseInfo :=
  ⟨b._referenceUri, b._vConnectedBodyInfos, b⟩

/-- The collaborators the writer calls and whose code is elsewhere. The
serializers return the members of the object they write. `GpgEncrypt`
returns the ciphertext when it reports success and `none` when it reports
failure. -/
structure Collaborators where
  ParseURI : String → String × String × String
  RaveInvertFileLookup : String → Option String
  SerializeKinBodyInfo : KinBodyInfo → dReal → List (String × Value)
  SerializeRobotBaseInfo : RobotBaseInfo → dReal → Int → List (String × Value)
  SerializeGrabbedInfo : GrabbedInfo → dReal → Int → Value
  DumpJson : Value → String
  DumpMsgPack : Value → String
  GpgEncrypt : String → String → Option String

/-- Modelled from the spec: the flag `ISO_ReferenceUriHint`, the "additional
serialization mode flag passed through to nested structural descriptions".
Its value is declared in a header that is not part of the translated file
and no property below depends on it. -/
def ISO_ReferenceUriHint : Int := 1

/-- The type `AttributesList`: key/value string pairs. -/
abbrev AttributesList := List (String × String)

/-! ## The writer -/

/-- The data members of `EnvironmentJSONWriter`; `_rEnvironment` is the
target value the writer was given by reference. -/
structure EnvironmentJSONWriter where
  _vForceResolveOpenRAVEScheme : String
  _serializeOptions : Int
  _rEnvironment : Value

namespace EnvironmentJSONWriter

/-- One step of the attribute loop of the constructor (source lines 35-42). -/
def readAttribute (w : EnvironmentJSONWriter) (itatt : String × String) :
    EnvironmentJSONWriter :=
  if itatt.1 = "openravescheme" then
    { w with _vForceResolveOpenRAVEScheme := itatt.2 }
  else if itatt.1 = "uriHint" then
    if itatt.2 = "1" then { w with _serializeOptions := ISO_ReferenceUriHint } else w
  else w

/-- The constructor (source lines 32-44). -/
def ctor (atts : AttributesList) (rEnvironment : Value) : EnvironmentJSONWriter :=
  atts.foldl readAttribute ⟨"", 0, rEnvironment⟩

/-- The call of `_CanonicalizeURI` as the method of a writer. -/
def canonicalize (X : Collaborators) (w : EnvironmentJSONWriter) (uri : String) : String :=
  _CanonicalizeURI X.ParseURI X.RaveInvertFileLookup w._vForceResolveOpenRAVEScheme uri

/-- The scope of the state saver in `_Write` (source lines 88-109): the
member is put in its rest pose, its structural description is extracted and
serialized, and the saver is destroyed. Returns the scene after the scope
and `bodyValue`. -/
def serializeInfoAtRest (X : Collaborators) (w : EnvironmentJSONWriter) (fUnitScale : dReal)
    (scene : Scene) (pBody : KinBodyPtr) : Scene × Value :=
  let saver := KinBodyStateSaver.ctor scene pBody
  let vZeros : List dReal := List.replicate (scene.bodies pBody).GetDOF 0
  let scene := scene.store pBody ((scene.bodies pBody).SetDOFValues vZeros)
  let scene := scene.store pBody ((scene.bodies pBody).SetTransform Transform.identity)
  let bodyValue : Value :=
    if !(scene.bodies pBody).IsRobot then
      let info := (scene.bodies pBody).ExtractInfo
      let info := { info with _referenceUri := canonicalize X w info._referenceUri }
      .object (X.SerializeKinBodyInfo info fUnitScale)
    else
      let info := (scene.bodies pBody).ExtractRobotInfo
      let info := { info with _referenceUri := canonicalize X w info._referenceUri }
      let info := { info with _vConnectedBodyInfos :=
        info._vConnectedBodyInfos.map fun c => { c with _uri := canonicalize X w c._uri } }
      .object (X.SerializeRobotBaseInfo info fUnitScale w._serializeOptions)
  (saver.dtor scene, bodyValue)

/-- The loop over the degrees of freedom in `_Write` (source lines 117-126):
`todo` iterations remain, the next index is `iDOF`. The difference
`iDOF - pJoint->GetDOFIndex()` is exact: `GetDOF()` is an `int`, so every
index is below `2^31`. -/
def dofValuesLoop (pBody : KinBody) (vDOFValues : List dReal) :
    Nat → Nat → Value → Except Fatal Value
  | 0, _, dofValues => .ok dofValues
  | todo + 1, iDOF, dofValues =>
    match pBody.GetJointFromDOFIndex iDOF with
    | none => .error (.exception "GetJointFromDOFIndex")
    | some pJoint =>
      let jointName := pJoint.GetName
      let jointAxis : Int := (iDOF : Int) - (pJoint.GetDOFIndex : Int)
      let jointDOFValue := SetJsonValueByKey .null "jointName" (.string jointName)
      let jointDOFValue := SetJsonValueByKey jointDOFValue "jointAxis" (.int jointAxis)
      let jointDOFValue := SetJsonValueByKey jointDOFValue "value" (.real (vDOFValues.getD iDOF 0))
      match dofValues.PushBack jointDOFValue with
      | .error e => .error e
      | .ok dofValues => dofValuesLoop pBody vDOFValues todo (iDOF + 1) dofValues

/-- One iteration of the loop over the bodies in `_Write` up to the finished
`bodyValue` (source lines 84-144). Returns the scene after the iteration
and the record. -/
def writeBodyValue (X : Collaborators) (w : EnvironmentJSONWriter) (fUnitScale : dReal)
    (scene : Scene) (pBody : KinBodyPtr) : Except Fatal (Scene × Value) :=
  let (scene, bodyValue) := serializeInfoAtRest X w fUnitScale scene pBody
  let vDOFValues := (scene.bodies pBody).GetDOFValues
  let withDOF : Except Fatal Value :=
    if 0 < vDOFValues.length then
      match dofValuesLoop (scene.bodies pBody) vDOFValues vDOFValues.length 0
          (Value.null.SetArray) with
      | .error e => .error e
      | .ok dofValues => .ok (SetJsonValueByKey bodyValue "dofValues" dofValues)
    else .ok bodyValue
  match withDOF with
  | .error e => .error e
  | .ok bodyValue =>
    let bodyValue :=
      SetJsonValueByKey bodyValue "transform" (SaveJsonValue (scene.bodies pBody).GetTransform)
    let vGrabbedInfo := (scene.bodies pBody).GetGrabbedInfo
    if 0 < vGrabbedInfo.length then
      let grabbedsValue : Value :=
        .array (vGrabbedInfo.map fun g => X.SerializeGrabbedInfo g fUnitScale w._serializeOptions)
      match bodyValue.AddMember "grabbed" grabbedsValue with
      | .error e => .error e
      | .ok bodyValue => .ok (scene, bodyValue)
    else .ok (scene, bodyValue)

/-- The loop over the bodies in `_Write` (source lines 83-150). -/
def bodiesLoop (X : Collaborators) (w : EnvironmentJSONWriter) (fUnitScale : dReal) :
    Scene → List KinBodyPtr → Value → Except Fatal (Scene × Value)
  | scene, [], bodiesValue => .ok (scene, bodiesValue)
  | scene, pBody :: rest, bodiesValue =>
    match writeBodyValue X w fUnitScale scene pBody with
    | .error e => .error e
    | .ok (scene, bodyValue) =>
      match bodyValue.MemberCount with
      | .error e => .error e
      | .ok count =>
        if 0 < count then
          match bodiesValue.PushBack bodyValue with
          | .error e => .error e
          | .ok bodiesValue => bodiesLoop X w fUnitScale scene rest bodiesValue
        else bodiesLoop X w fUnitScale scene rest bodiesValue

/-- Translation of `EnvironmentJSONWriter::_Write` (source lines 69-156). Returns the
scene after the call and the writer with its target filled. -/
def _Write (X : Collaborators) (w : EnvironmentJSONWriter) (scene : Scene)
    (listbodies : List KinBodyPtr) : Except Fatal (Scene × EnvironmentJSONWriter) :=
  let rEnvironment := w._rEnvironment.SetObject
  match listbodies with
  | [] => .ok (scene, { w with _rEnvironment := rEnvironment })
  | front :: _ =>
    let penv := (scene.bodies front).GetEnv
    let rEnvironment :=
      SetJsonValueByKey rEnvironment "unit" (.string (scene.envs penv).GetUnit)
    let fUnitScale : dReal := 1
    if listbodies.all fun itbody => decide ((scene.bodies itbody).GetEnv = penv) then
      match bodiesLoop X w fUnitScale scene listbodies (Value.null.SetArray) with
      | .error e => .error e
      | .ok (scene, bodiesValue) =>
        match bodiesValue.Size with
        | .error e => .error e
        | .ok size =>
          if 0 < size then
            match rEnvironment.AddMember "bodies" bodiesValue with
            | .error e => .error e
            | .ok rEnvironment => .ok (scene, { w with _rEnvironment := rEnvironment })
          else .ok (scene, { w with _rEnvironment := rEnvironment })
    else .error (.assertion "(*itbody)->GetEnv() == penv")

/-- Translation of `Write(const std::list<KinBodyPtr>&)` (source lines 63-65). -/
def Write (X : Collaborators) (w : EnvironmentJSONWriter) (scene : Scene)
    (listbodies : List KinBodyPtr) : Except Fatal (Scene × EnvironmentJSONWriter) :=
  _Write X w scene listbodies

/-- Translation of `Write(KinBodyPtr)` (source lines 57-61). -/
def WriteBody (X : Collaborators) (w : EnvironmentJSONWriter) (scene : Scene)
    (pbody : KinBodyPtr) : Except Fatal (Scene × EnvironmentJSONWriter) :=
  _Write X w scene [pbody]

end EnvironmentJSONWriter

/-! ## Entry points for a list of bodies -/

/-- Translation of `RaveWriteJSONStream` for a list (source lines 218-224): the scene after
the call and the stream with the text encoding appended. -/
def RaveWriteJSONStream (X : Collaborators) (scene : Scene) (listbodies : List KinBodyPtr)
    (os : String) (atts : AttributesList) : Except Fatal (Scene × String) :=
  let jsonwriter := EnvironmentJSONWriter.ctor atts .null
  match jsonwriter.Write X scene listbodies with
  | .error e => .error e
  | .ok (scene, jsonwriter) => .ok (scene, os ++ X.DumpJson jsonwriter._rEnvironment)

/-- Translation of `RaveWriteMsgPackStream` for a list (source lines 275-282). -/
def RaveWriteMsgPackStream (X : Collaborators) (scene : Scene) (listbodies : List KinBodyPtr)
    (os : String) (atts : AttributesList) : Except Fatal (Scene × String) :=
  let jsonwriter := EnvironmentJSONWriter.ctor atts .null
  match jsonwriter.Write X scene listbodies with
  | .error e => .error e
  | .ok (scene, jsonwriter) => .ok (scene, os ++ X.DumpMsgPack jsonwriter._rEnvironment)

/-- Translation of `RaveWriteJSON` for a list (source lines 248-252): the caller supplies
the target value. -/
def RaveWriteJSON (X : Collaborators) (scene : Scene) (listbodies : List KinBodyPtr)
    (rEnvironment : Value) (atts : AttributesList) : Except Fatal (Scene × Value) :=
  let jsonwriter := EnvironmentJSONWriter.ctor atts rEnvironment
  match jsonwriter.Write X scene listbodies with
  | .error e => .error e
  | .ok (scene, jsonwriter) => .ok (scene, jsonwriter._rEnvironment)

/-- The enumeration `MimeType`. -/
inductive MimeType where
  | JSON
  | MsgPack
deriving DecidableEq

/-- The key-name loop of `RaveWriteEncryptedStream` (source lines 361-367):
the value of the first `gpgkey` attribute, empty when there is none. -/
def findKeyName : AttributesList → String
  | [] => ""
  | att :: rest => if att.1 = "gpgkey" then att.2 else findKeyName rest

/-- What a call of the encrypted pipeline leaves behind: the scene, the
destination stream and the log of `RAVELOG_ERROR` messages. -/
structure Written where
  scene : Scene
  os : String
  log : List String

/-- Translation of `RaveWriteEncryptedStream` for a list (source lines 359-387). -/
def RaveWriteEncryptedStream (X : Collaborators) (scene : Scene) (listbodies : List KinBodyPtr)
    (os : String) (log : List String) (atts : AttributesList) (mimeType : MimeType) :
    Except Fatal Written :=
  let keyName := findKeyName atts
  let ss : String := ""
  let rendered :=
    match mimeType with
    | .JSON => RaveWriteJSONStream X scene listbodies ss atts
    | .MsgPack => RaveWriteMsgPackStream X scene listbodies ss atts
  match rendered with
  | .error e => .error e
  | .ok (scene, ss) =>
    match X.GpgEncrypt ss keyName with
    | some output_buffer => .ok ⟨scene, os ++ output_buffer, log⟩
    | none => .ok ⟨scene, os, log ++ ["Failed to encrypt file, check GPG keys."]⟩

/-- Translation of `RaveWriteEncryptedMemory` for a list (source lines 321-327): the call
writes to a fresh vector stream whose content is then swapped into
`output`. -/
def RaveWriteEncryptedMemory (X : Collaborators) (scene : Scene) (listbodies : List KinBodyPtr)
    (_output : String) (log : List String) (atts : AttributesList) (mimeType : MimeType) :
    Except Fatal Written :=
  let vs : String := ""
  RaveWriteEncryptedStream X scene listbodies vs log atts mimeType

/-! ## A sample scene for concrete runs -/

/-- Sample collaborators: the modelled parser, one search root "/data",
serializers that emit a few structural fields, encoders that list the
top-level keys, and an encryption that knows the key "alice" only. -/
def sampleCollaborators : Collaborators where
  ParseURI := ParseURI
  RaveInvertFileLookup := invertUnderRoot "/data"
  SerializeKinBodyInfo := fun info _ =>
    [("name", .string info.extractedFrom._name), ("referenceUri", .string info._referenceUri)]
  SerializeRobotBaseInfo := fun info _ options =>
    [("name", .string info.extractedFrom._name), ("referenceUri", .string info._referenceUri),
      ("connectedBodies", .array (info._vConnectedBodyInfos.map fun c => .string c._uri)),
      ("options", .int options)]
  SerializeGrabbedInfo := fun g _ _ =>
    .object [("grabbedName", .string g._grabbedname), ("robotLinkName", .string g._robotlinkname)]
  DumpJson := fun v =>
    match v with
    | .object members => "json " ++ String.join (members.map fun m => m.1 ++ " ")
    | _ => "json"
  DumpMsgPack := fun v =>
    match v with
    | .object members => "msgpack " ++ String.join (members.map fun m => m.1 ++ " ")
    | _ => "msgpack"
  GpgEncrypt := fun plain keyName => if keyName = "alice" then some ("gpg:" ++ plain) else none

/-- A robot of environment 7 with two joints, the first with one axis and
the second with two, away from its rest pose and holding a cup. -/
def sampleArm : KinBody where
  env := 7
  robot := true
  _name := "arm"
  _referenceUri := "file:/data/robots/arm.dae"
  _vConnectedBodyInfos := [⟨"gripper", "file:/data/robots/gripper.dae#tool"⟩]
  _vecjoints := [⟨"shoulder", [5]⟩, ⟨"wrist", [6, 7]⟩]
  _transform := ⟨(0, 1, 0, 0), (1, 2, 3)⟩
  _vGrabbedInfo := [⟨"cup", "hand"⟩]

/-- A plain body of environment 7 without joints, holding nothing. -/
def sampleBox : KinBody where
  env := 7
  robot := false
  _name := "box"
  _referenceUri := ""
  _vConnectedBodyInfos := []
  _vecjoints := []
  _transform := ⟨(1, 0, 0, 0), (4, 5, 6)⟩
  _vGrabbedInfo := []

/-- The box again, owned by environment 8. -/
def sampleStray : KinBody := { sampleBox with env := 8 }

/-- A scene with the arm at address 1, the box at address 2 and the stray
box everywhere else; every environment uses millimetres. -/
def sampleScene : Scene where
  envs := fun _ => ⟨"mm"⟩
  bodies := fun p => if p = 1 then sampleArm else if p = 2 then sampleBox else sampleStray

/-! ## Lemmas on strings -/

theorem length_pos_iff_ne_empty (s : String) : 0 < s.length ↔ s ≠ "" := by
  rw [String.length, List.length_pos, ne_eq, ne_eq, String.ext_iff]

theorem removeSuffix_append (stem suffix : String) :
    RemoveSuffix (stem ++ suffix) suffix = (true, stem) := by
  have h : suffix.data.isSuffixOf (stem ++ suffix).data = true := by
    rw [List.isSuffixOf_iff_suffix, String.data_append]
    exact List.suffix_append _ _
  unfold RemoveSuffix
  rw [if_pos h]
  congr 1
  apply String.ext
  simp [String.data_append]

theorem fixExtension_strip (stem : String) : fixExtension (stem ++ ".dae") = stem ++ ".json" := by
  unfold fixExtension
  rw [removeSuffix_append]

theorem removeSuffix_json (stem : String) :
    RemoveSuffix (stem ++ ".json") ".dae" = (false, stem ++ ".json") := by
  have h : ¬ (".dae".data.isSuffixOf (stem ++ ".json").data = true) := by
    simp [List.isSuffixOf, String.data_append]
  unfold RemoveSuffix
  rw [if_neg h]

theorem fixExtension_idem (path : String) : fixExtension (fixExtension path) = fixExtension path := by
  by_cases h : ".dae".data.isSuffixOf path.data = true
  · have h1 : fixExtension path
        = (⟨path.data.take (path.data.length - ".dae".data.length)⟩ : String) ++ ".json" := by
      simp only [fixExtension, RemoveSuffix, if_pos h]
    rw [h1]
    simp only [fixExtension, removeSuffix_json]
  · have h1 : fixExtension path = path := by
      simp only [fixExtension, RemoveSuffix, if_neg h]
    rw [h1, h1]

theorem assembleURI_ne_empty (scheme path fragment : String) :
    assembleURI scheme path fragment ≠ "" := by
  unfold assembleURI
  intro h
  have := congrArg String.data h
  split at this <;> simp [String.data_append] at this

/-! ## The URI canonicalizer -/

theorem canonicalize_unfold (parseURI : String → String × String × String)
    (lookup : String → Option String) (s uri scheme path fragment : String)
    (hne : uri ≠ "") (hparse : parseURI uri = (scheme, path, fragment)) :
    _CanonicalizeURI parseURI lookup s uri
      = assembleURI (forceResolve lookup s scheme path).1
          (fixExtension (forceResolve lookup s scheme path).2) fragment := by
  simp only [_CanonicalizeURI, if_neg hne, canonicalParts, hparse]

theorem forceResolve_hit (lookup : String → Option String) (s path r : String)
    (hs : s ≠ "") (hr : lookup path = some r) :
    forceResolve lookup s "file" path = (s, "/" ++ r) := by
  have h : 0 < s.length ∧ "file" = "file" := ⟨(length_pos_iff_ne_empty s).2 hs, rfl⟩
  unfold forceResolve
  rw [if_pos h, hr]

theorem forceResolve_miss (lookup : String → Option String) (s scheme path : String)
    (hr : lookup path = none) :
    forceResolve lookup s scheme path = (scheme, path) := by
  unfold forceResolve
  split
  · simp only [hr]
  · rfl

theorem forceResolve_skip (lookup : String → Option String) (s scheme path : String)
    (h : scheme ≠ "file" ∨ s = "") :
    forceResolve lookup s scheme path = (scheme, path) := by
  have hn : ¬ (0 < s.length ∧ scheme = "file") := by
    rintro ⟨h1, h2⟩
    rcases h with h | h
    · exact h h2
    · exact (length_pos_iff_ne_empty s).1 h1 h
  simp only [forceResolve, if_neg hn]

/-- C7. Suffix rewrite: with an empty scheme override, a non-empty URI whose
parsed path ends with ".dae" is returned as scheme, ":", the path with the
trailing ".dae" replaced by ".json", and "#" with the fragment only when the
fragment is non-empty. In particular "file:/a/b/model.dae" becomes
"file:/a/b/model.json", which ends with "model.json". -/
theorem canonicalize_suffix_rewrite (parseURI : String → String × String × String)
    (lookup : String → Option String) :
    (∀ uri scheme stem fragment : String, uri ≠ "" →
      parseURI uri = (scheme, stem ++ ".dae", fragment) →
      _CanonicalizeURI parseURI lookup "" uri
        = if fragment = "" then scheme ++ ":" ++ (stem ++ ".json")
          else scheme ++ ":" ++ (stem ++ ".json") ++ ("#" ++ fragment))
    ∧ (parseURI "file:/a/b/model.dae" = ("file", "/a/b/model.dae", "") →
        _CanonicalizeURI parseURI lookup "" "file:/a/b/model.dae" = "file:/a/b/model.json")
    ∧ _CanonicalizeURI ParseURI lookup "" "file:/a/b/model.dae" = "file:/a/b/model.json"
    ∧ "model.json".data.isSuffixOf
        (_CanonicalizeURI ParseURI lookup "" "file:/a/b/model.dae").data = true := by
  have gen : ∀ uri scheme stem fragment : String, uri ≠ "" →
      parseURI uri = (scheme, stem ++ ".dae", fragment) →
      _CanonicalizeURI parseURI lookup "" uri
        = if fragment = "" then scheme ++ ":" ++ (stem ++ ".json")
          else scheme ++ ":" ++ (stem ++ ".json") ++ ("#" ++ fragment) := by
    intro uri scheme stem fragment hne hparse
    rw [canonicalize_unfold parseURI lookup "" uri scheme _ fragment hne hparse,
      forceResolve_skip lookup "" scheme _ (Or.inr rfl), fixExtension_strip]
    unfold assembleURI
    by_cases hf : fragment = ""
    · have : ¬ 0 < fragment.length := fun h => (length_pos_iff_ne_empty _).1 h hf
      simp only [if_neg this, if_pos hf]
    · have : 0 < fragment.length := (length_pos_iff_ne_empty _).2 hf
      simp only [if_pos this, if_neg hf]
  have conc : _CanonicalizeURI ParseURI lookup "" "file:/a/b/model.dae"
      = "file:/a/b/model.json" := by
    rw [canonicalize_unfold ParseURI lookup "" "file:/a/b/model.dae" "file" "/a/b/model.dae" ""
        (by decide) (by decide),
      forceResolve_skip lookup "" "file" _ (Or.inr rfl)]
    decide
  refine ⟨gen, ?_, conc, ?_⟩
  · intro hparse
    rw [canonicalize_unfold parseURI lookup "" _ "file" "/a/b/model.dae" "" (by decide) hparse,
      forceResolve_skip lookup "" "file" _ (Or.inr rfl)]
    decide
  · rw [conc]
    decide

/-- Witness for C7 at the URI "file:/a/b/model.dae#base" with the modelled
parser. -/
theorem canonicalize_suffix_rewrite_witness :
    "file:/a/b/model.dae#base" ≠ ""
    ∧ ParseURI "file:/a/b/model.dae#base" = ("file", "/a/b/model" ++ ".dae", "base")
    ∧ _CanonicalizeURI ParseURI (invertUnderRoot "/data") "" "file:/a/b/model.dae#base"
        = "file:/a/b/model.json#base" :=
  ⟨by decide, by decide,
    ((canonicalize_suffix_rewrite ParseURI (invertUnderRoot "/data")).1
      "file:/a/b/model.dae#base" "file" "/a/b/model" "base" (by decide) (by decide)).trans
      (by decide)⟩

/-- C8. Forced-scheme rewrite and lookup-miss fallback: with a non-empty
override and a non-empty URI of scheme "file", a lookup hit with relative
form r gives scheme = override and path = "/" ++ r before the suffix
rewrite; a lookup miss leaves scheme and path unchanged, so the result is
the one of the empty override. For a scheme other than "file", or an empty
override, the result is the same for every lookup and the parsed scheme is
passed through. -/
theorem canonicalize_forced_scheme (parseURI : String → String × String × String)
    (lookup : String → Option String) (s uri scheme path fragment : String)
    (hne : uri ≠ "") (hparse : parseURI uri = (scheme, path, fragment)) :
    (s ≠ "" → scheme = "file" → ∀ r, lookup path = some r →
      canonicalParts parseURI lookup s uri = (s, fixExtension ("/" ++ r), fragment)
      ∧ _CanonicalizeURI parseURI lookup s uri
          = assembleURI s (fixExtension ("/" ++ r)) fragment)
    ∧ (s ≠ "" → scheme = "file" → lookup path = none →
      canonicalParts parseURI lookup s uri = (scheme, fixExtension path, fragment)
      ∧ _CanonicalizeURI parseURI lookup s uri = _CanonicalizeURI parseURI lookup "" uri)
    ∧ (scheme ≠ "file" ∨ s = "" → ∀ other : String → Option String,
      _CanonicalizeURI parseURI other s uri
        = assembleURI scheme (fixExtension path) fragment) := by
  refine ⟨?_, ?_, ?_⟩
  · intro hs hfile r hr
    subst hfile
    constructor
    · simp only [canonicalParts, hparse, forceResolve_hit lookup s path r hs hr]
    · rw [canonicalize_unfold parseURI lookup s uri _ path fragment hne hparse,
        forceResolve_hit lookup s path r hs hr]
  · intro _ _ hr
    constructor
    · simp only [canonicalParts, hparse, forceResolve_miss lookup s scheme path hr]
    · rw [canonicalize_unfold parseURI lookup s uri scheme path fragment hne hparse,
        canonicalize_unfold parseURI lookup "" uri scheme path fragment hne hparse,
        forceResolve_miss lookup s scheme path hr,
        forceResolve_skip lookup "" scheme path (Or.inr rfl)]
  · intro h other
    rw [canonicalize_unfold parseURI other s uri scheme path fragment hne hparse,
      forceResolve_skip other s scheme path h]

/-- Witness for C8: the URI "file:/data/robots/arm.dae#base" under the
search root "/data" with the override "openrave". -/
theorem canonicalize_forced_scheme_witness :
    "file:/data/robots/arm.dae#base" ≠ ""
    ∧ ParseURI "file:/data/robots/arm.dae#base" = ("file", "/data/robots/arm.dae", "base")
    ∧ invertUnderRoot "/data" "/data/robots/arm.dae" = some "robots/arm.dae"
    ∧ _CanonicalizeURI ParseURI (invertUnderRoot "/data") "openrave"
        "file:/data/robots/arm.dae#base" = "openrave:/robots/arm.json#base" :=
  ⟨by decide, by decide, by decide,
    (((canonicalize_forced_scheme ParseURI (invertUnderRoot "/data") "openrave"
      "file:/data/robots/arm.dae#base" "file" "/data/robots/arm.dae" "base"
      (by decide) (by decide)).1 (by decide) rfl "robots/arm.dae" (by decide)).2).trans
      (by decide)⟩

/-- C2, as stated, fails. With the override "file" and the search root
"/data", "file:/data/data/model.dae" becomes "file:/data/model.json", and
that becomes "file:/model.json": the first result is again a "file" URI
under the root. With the empty override and the modelled parser,
"a:b.dae#c#" becomes "a:b.dae#c", and that becomes "a:b.json#c": the first
result does not parse back into the components it was assembled from. -/
theorem canonicalize_not_idempotent :
    (_CanonicalizeURI ParseURI (invertUnderRoot "/data") "file" "file:/data/data/model.dae"
        = "file:/data/model.json"
      ∧ _CanonicalizeURI ParseURI (invertUnderRoot "/data") "file" "file:/data/model.json"
        = "file:/model.json"
      ∧ _CanonicalizeURI ParseURI (invertUnderRoot "/data") "file"
          (_CanonicalizeURI ParseURI (invertUnderRoot "/data") "file" "file:/data/data/model.dae")
        ≠ _CanonicalizeURI ParseURI (invertUnderRoot "/data") "file" "file:/data/data/model.dae")
    ∧ (_CanonicalizeURI ParseURI (fun _ => none) "" "a:b.dae#c#" = "a:b.dae#c"
      ∧ _CanonicalizeURI ParseURI (fun _ => none) "" "a:b.dae#c" = "a:b.json#c"
      ∧ _CanonicalizeURI ParseURI (fun _ => none) ""
          (_CanonicalizeURI ParseURI (fun _ => none) "" "a:b.dae#c#")
        ≠ _CanonicalizeURI ParseURI (fun _ => none) "" "a:b.dae#c#") := by
  decide

/-- C2, amended. A second canonicalization returns the first result
whenever the parser splits the first result back into the scheme, path and
fragment it was assembled from and the forced-scheme rewrite does not fire
on it: the override is empty, or that scheme is not "file", or the lookup
misses that path. -/
theorem canonicalize_idempotent (parseURI : String → String × String × String)
    (lookup : String → Option String) (s uri : String)
    (hparse : parseURI (_CanonicalizeURI parseURI lookup s uri)
      = canonicalParts parseURI lookup s uri)
    (hskip : s = "" ∨ (canonicalParts parseURI lookup s uri).1 ≠ "file"
      ∨ lookup (canonicalParts parseURI lookup s uri).2.1 = none) :
    _CanonicalizeURI parseURI lookup s (_CanonicalizeURI parseURI lookup s uri)
      = _CanonicalizeURI parseURI lookup s uri := by
  by_cases hne : uri = ""
  · subst hne
    simp [_CanonicalizeURI]
  · rcases hp : parseURI uri with ⟨scheme, path, fragment⟩
    have hparts : canonicalParts parseURI lookup s uri
        = ((forceResolve lookup s scheme path).1,
            fixExtension (forceResolve lookup s scheme path).2, fragment) := by
      simp only [canonicalParts, hp]
    have hfirst := canonicalize_unfold parseURI lookup s uri scheme path fragment hne hp
    rw [hparts] at hparse hskip
    have hne2 : _CanonicalizeURI parseURI lookup s uri ≠ "" := by
      rw [hfirst]
      exact assembleURI_ne_empty _ _ _
    rw [canonicalize_unfold parseURI lookup s _ _ _ _ hne2 hparse]
    have hres : forceResolve lookup s (forceResolve lookup s scheme path).1
        (fixExtension (forceResolve lookup s scheme path).2)
        = ((forceResolve lookup s scheme path).1,
            fixExtension (forceResolve lookup s scheme path).2) := by
      rcases hskip with h | h | h
      · exact forceResolve_skip lookup s _ _ (Or.inr h)
      · exact forceResolve_skip lookup s _ _ (Or.inl h)
      · exact forceResolve_miss lookup s _ _ h
    rw [hres, fixExtension_idem, hfirst]

/-- Witness for the amended C2: "file:/data/robots/arm.dae#base" under the
search root "/data" with the override "openrave"; the result
"openrave:/robots/arm.json#base" is a fixed point. -/
theorem canonicalize_idempotent_witness :
    ParseURI (_CanonicalizeURI ParseURI (invertUnderRoot "/data") "openrave"
        "file:/data/robots/arm.dae#base")
      = canonicalParts ParseURI (invertUnderRoot "/data") "openrave"
          "file:/data/robots/arm.dae#base"
    ∧ (canonicalParts ParseURI (invertUnderRoot "/data") "openrave"
        "file:/data/robots/arm.dae#base").1 ≠ "file"
    ∧ _CanonicalizeURI ParseURI (invertUnderRoot "/data") "openrave"
        "file:/data/robots/arm.dae#base" = "openrave:/robots/arm.json#base"
    ∧ _CanonicalizeURI ParseURI (invertUnderRoot "/data") "openrave"
        (_CanonicalizeURI ParseURI (invertUnderRoot "/data") "openrave"
          "file:/data/robots/arm.dae#base")
      = _CanonicalizeURI ParseURI (invertUnderRoot "/data") "openrave"
          "file:/data/robots/arm.dae#base" :=
  ⟨by decide, by decide, by decide,
    canonicalize_idempotent ParseURI (invertUnderRoot "/data") "openrave"
      "file:/data/robots/arm.dae#base" (by decide) (Or.inr (Or.inl (by decide)))⟩

/-! ## Lemmas on the document tree -/

open rapidjson

theorem findIn_setMember_same (key : String) (t : Value) (ms : List (String × Value)) :
    Value.findIn key (setMember key t ms) = some t := by
  induction ms with
  | nil => simp [setMember, Value.findIn]
  | cons m rest ih =>
    obtain ⟨k, x⟩ := m
    by_cases h : k = key
    · simp [setMember, Value.findIn, h]
    · simp [setMember, Value.findIn, h, ih]

theorem findIn_setMember_other (key other : String) (t : Value) (ms : List (String × Value))
    (hne : key ≠ other) :
    Value.findIn other (setMember key t ms) = Value.findIn other ms := by
  induction ms with
  | nil => simp [setMember, Value.findIn, hne]
  | cons m rest ih =>
    obtain ⟨k, x⟩ := m
    by_cases h : k = key
    · subst h
      simp [setMember, Value.findIn, hne]
    · by_cases h2 : k = other
      · subst h2
        simp [setMember, Value.findIn, h]
      · simp [setMember, Value.findIn, h, h2, ih]

theorem findIn_append_same (key : String) (t : Value) (ms : List (String × Value))
    (hnone : Value.findIn key ms = none) :
    Value.findIn key (ms ++ [(key, t)]) = some t := by
  induction ms with
  | nil => simp [Value.findIn]
  | cons m rest ih =>
    obtain ⟨k, x⟩ := m
    by_cases h : k = key
    · simp [Value.findIn, h] at hnone
    · simp only [Value.findIn, h, if_false] at hnone
      simp [Value.findIn, h, ih hnone]

theorem findIn_append_isSome (key : String) (t : Value) (ms : List (String × Value)) :
    (Value.findIn key (ms ++ [(key, t)])).isSome = true := by
  induction ms with
  | nil => simp [Value.findIn]
  | cons m rest ih =>
    obtain ⟨k, x⟩ := m
    by_cases h : k = key
    · simp [Value.findIn, h]
    · simp [Value.findIn, h, ih]

theorem findIn_append_other (key other : String) (t : Value) (ms : List (String × Value))
    (hne : key ≠ other) :
    Value.findIn other (ms ++ [(key, t)]) = Value.findIn other ms := by
  induction ms with
  | nil => simp [Value.findIn, hne]
  | cons m rest ih =>
    obtain ⟨k, x⟩ := m
    by_cases h : k = other
    · simp [Value.findIn, h]
    · simp [Value.findIn, h, ih]

theorem setMember_ne_nil (key : String) (t : Value) (ms : List (String × Value)) :
    setMember key t ms ≠ [] := by
  cases ms with
  | nil => simp [setMember]
  | cons m rest =>
    obtain ⟨k, x⟩ := m
    by_cases h : k = key <;> simp [setMember, h]

/-! ## Lemmas on the scene -/

theorem Scene.store_store_restore (scene : Scene) (p : KinBodyPtr) (a b : KinBody) :
    ((scene.store p a).store p b).store p (scene.bodies p) = scene := by
  cases scene with
  | mk envs bodies =>
    simp [Scene.store, Function.update_idem, Function.update_eq_self]

theorem serializeInfoAtRest_scene (X : Collaborators) (w : EnvironmentJSONWriter)
    (fUnitScale : dReal) (scene : Scene) (pBody : KinBodyPtr) :
    (EnvironmentJSONWriter.serializeInfoAtRest X w fUnitScale scene pBody).1 = scene := by
  simp only [EnvironmentJSONWriter.serializeInfoAtRest, KinBodyStateSaver.dtor,
    KinBodyStateSaver.ctor]
  exact Scene.store_store_restore scene pBody _ _

theorem serializeInfoAtRest_object (X : Collaborators) (w : EnvironmentJSONWriter)
    (fUnitScale : dReal) (scene : Scene) (pBody : KinBodyPtr) :
    ∃ members, (EnvironmentJSONWriter.serializeInfoAtRest X w fUnitScale scene pBody).2
      = .object members := by
  simp only [EnvironmentJSONWriter.serializeInfoAtRest]
  split
  · exact ⟨_, rfl⟩
  · exact ⟨_, rfl⟩

/-! ## Lemmas on joints and degrees of freedom -/

theorem ownerFrom_total (joints : List Joint) :
    ∀ base iDOF : Nat, base ≤ iDOF →
      iDOF < base + (joints.map fun j => j.values.length).sum →
      ∃ pJoint, KinBody.ownerFrom joints base iDOF = some pJoint
        ∧ pJoint.joint ∈ joints
        ∧ pJoint.dofindex ≤ iDOF ∧ iDOF < pJoint.dofindex + pJoint.joint.values.length
        ∧ ((joints.map fun j => j.values).flatten).getD (iDOF - base) 0
            = pJoint.joint.values.getD (iDOF - pJoint.dofindex) 0 := by
  induction joints with
  | nil => intro base iDOF h1 h2; simp at h2; omega
  | cons j rest ih =>
    intro base iDOF h1 h2
    simp only [List.map_cons, List.sum_cons] at h2
    by_cases h : iDOF < base + j.values.length
    · refine ⟨⟨j, base⟩, ?_, ?_, h1, h, ?_⟩
      · simp [KinBody.ownerFrom, h]
      · simp
      · simp only [List.map_cons, List.flatten_cons]
        rw [List.getD_append _ _ _ _ (by omega)]
    · obtain ⟨pJoint, e, hm, hlo, hhi, hv⟩ := ih (base + j.values.length) iDOF (by omega) (by omega)
      refine ⟨pJoint, ?_, ?_, hlo, hhi, ?_⟩
      · simp [KinBody.ownerFrom, h, e]
      · simp [hm]
      · simp only [List.map_cons, List.flatten_cons]
        rw [List.getD_append_right _ _ _ _ (by omega), ← hv]
        congr 1
        omega

theorem getDOFValues_length (b : KinBody) : b.GetDOFValues.length = b.GetDOF := by
  simp [KinBody.GetDOFValues, KinBody.GetDOF, List.length_flatten, Function.comp_def]

theorem jointDOFValue_eq (name : String) (axis : Int) (value : dReal) :
    SetJsonValueByKey
      (SetJsonValueByKey (SetJsonValueByKey .null "jointName" (.string name))
        "jointAxis" (.int axis)) "value" (.real value)
      = .object [("jointName", .string name), ("jointAxis", .int axis), ("value", .real value)] := by
  simp [SetJsonValueByKey, setMember]

theorem dofValuesLoop_spec (b : KinBody) (vals : List dReal) :
    ∀ (todo iDOF : Nat) (acc : List Value), iDOF + todo ≤ b.GetDOF →
      ∃ es, EnvironmentJSONWriter.dofValuesLoop b vals todo iDOF (.array acc)
          = .ok (.array (acc ++ es))
        ∧ es.length = todo
        ∧ ∀ t, t < todo → ∃ pJoint, b.GetJointFromDOFIndex (iDOF + t) = some pJoint
            ∧ es[t]? = some (.object [("jointName", .string pJoint.GetName),
                ("jointAxis", .int (((iDOF + t : Nat) : Int) - (pJoint.GetDOFIndex : Int))),
                ("value", .real (vals.getD (iDOF + t) 0))]) := by
  intro todo
  induction todo with
  | zero =>
    intro iDOF acc _
    exact ⟨[], by simp [EnvironmentJSONWriter.dofValuesLoop], rfl, fun t ht => absurd ht (by omega)⟩
  | succ n ih =>
    intro iDOF acc hle
    obtain ⟨pJoint, hown, -, -, -, -⟩ :=
      ownerFrom_total b._vecjoints 0 iDOF (Nat.zero_le _)
        (by simpa [KinBody.GetDOF] using (show iDOF < b.GetDOF by omega))
    have hget : b.GetJointFromDOFIndex iDOF = some pJoint := hown
    obtain ⟨es, hrun, hlen, hent⟩ := ih (iDOF + 1)
      (acc ++ [.object [("jointName", .string pJoint.GetName),
        ("jointAxis", .int ((iDOF : Int) - (pJoint.GetDOFIndex : Int))),
        ("value", .real (vals.getD iDOF 0))]]) (by omega)
    refine ⟨.object [("jointName", .string pJoint.GetName),
        ("jointAxis", .int ((iDOF : Int) - (pJoint.GetDOFIndex : Int))),
        ("value", .real (vals.getD iDOF 0))] :: es, ?_, by simp [hlen], ?_⟩
    · simp only [EnvironmentJSONWriter.dofValuesLoop, hget, jointDOFValue_eq, Value.PushBack, hrun]
      simp
    · intro t ht
      cases t with
      | zero => exact ⟨pJoint, hget, by simp⟩
      | succ t =>
        obtain ⟨q, hq, he⟩ := hent t (by omega)
        refine ⟨q, ?_, ?_⟩
        · rw [← hq]; congr 1; omega
        · rw [List.getElem?_cons_succ, he]
          have : iDOF + 1 + t = iDOF + (t + 1) := by omega
          rw [this]

/-! ## Lemmas on the writer -/

theorem writeBodyValue_spec (X : Collaborators) (w : EnvironmentJSONWriter) (u : dReal)
    (scene : Scene) (p : KinBodyPtr) :
    ∃ im es,
      (EnvironmentJSONWriter.serializeInfoAtRest X w u scene p).2 = .object im
      ∧ es.length = (scene.bodies p).GetDOF
      ∧ (∀ i, i < (scene.bodies p).GetDOF →
          ∃ pJoint, (scene.bodies p).GetJointFromDOFIndex i = some pJoint
            ∧ es[i]? = some (.object [("jointName", .string pJoint.GetName),
                ("jointAxis", .int ((i : Int) - (pJoint.GetDOFIndex : Int))),
                ("value", .real ((scene.bodies p).GetDOFValues.getD i 0))]))
      ∧ EnvironmentJSONWriter.writeBodyValue X w u scene p
          = .ok (scene, .object
              ((fun ms => if 0 < (scene.bodies p).GetGrabbedInfo.length then
                  ms ++ [("grabbed", .array ((scene.bodies p).GetGrabbedInfo.map fun g =>
                    X.SerializeGrabbedInfo g u w._serializeOptions))]
                else ms)
                (setMember "transform" (SaveJsonValue (scene.bodies p).GetTransform)
                  (if 0 < (scene.bodies p).GetDOF then setMember "dofValues" (.array es) im
                    else im)))) := by
  obtain ⟨im, him⟩ := serializeInfoAtRest_object X w u scene p
  have hpair : EnvironmentJSONWriter.serializeInfoAtRest X w u scene p = (scene, .object im) :=
    Prod.ext (serializeInfoAtRest_scene X w u scene p) him
  obtain ⟨es, hrun, hlen, hent⟩ :=
    dofValuesLoop_spec (scene.bodies p) (scene.bodies p).GetDOFValues
      (scene.bodies p).GetDOF 0 [] (by omega)
  refine ⟨im, es, him, hlen, ?_, ?_⟩
  · intro i hi
    obtain ⟨pJoint, h1, h2⟩ := hent i hi
    refine ⟨pJoint, by simpa using h1, ?_⟩
    simpa using h2
  · simp only [EnvironmentJSONWriter.writeBodyValue, hpair, getDOFValues_length,
      Value.SetArray, hrun, List.nil_append]
    by_cases hd : 0 < (scene.bodies p).GetDOF
    · by_cases hg : 0 < (scene.bodies p).GetGrabbedInfo.length
      · simp [hd, hg, SetJsonValueByKey, Value.AddMember]
      · simp [hd, hg, SetJsonValueByKey, Value.AddMember]
    · by_cases hg : 0 < (scene.bodies p).GetGrabbedInfo.length
      · simp [hd, hg, SetJsonValueByKey, Value.AddMember]
      · simp [hd, hg, SetJsonValueByKey, Value.AddMember]

theorem writeBodyValue_nonempty (X : Collaborators) (w : EnvironmentJSONWriter) (u : dReal)
    (scene : Scene) (p : KinBodyPtr) :
    ∃ ms, EnvironmentJSONWriter.writeBodyValue X w u scene p = .ok (scene, .object ms)
      ∧ 0 < ms.length := by
  obtain ⟨im, es, -, -, -, h⟩ := writeBodyValue_spec X w u scene p
  refine ⟨_, h, ?_⟩
  have hpos : 0 < (setMember "transform" (SaveJsonValue (scene.bodies p).GetTransform)
      (if 0 < (scene.bodies p).GetDOF then setMember "dofValues" (.array es) im
        else im)).length :=
    List.length_pos.2 (setMember_ne_nil _ _ _)
  dsimp only
  split
  · rw [List.length_append]; omega
  · exact hpos

theorem bodiesLoop_spec (X : Collaborators) (w : EnvironmentJSONWriter) (u : dReal)
    (scene : Scene) :
    ∀ (listbodies : List KinBodyPtr) (acc : List Value),
      ∃ records, EnvironmentJSONWriter.bodiesLoop X w u scene listbodies (.array acc)
          = .ok (scene, .array (acc ++ records))
        ∧ List.Forall₂
            (fun p r => EnvironmentJSONWriter.writeBodyValue X w u scene p = .ok (scene, r))
            listbodies records := by
  intro listbodies
  induction listbodies with
  | nil =>
    intro acc
    exact ⟨[], by simp [EnvironmentJSONWriter.bodiesLoop], List.Forall₂.nil⟩
  | cons p rest ih =>
    intro acc
    obtain ⟨ms, hw, hpos⟩ := writeBodyValue_nonempty X w u scene p
    obtain ⟨records, hrun, hall⟩ := ih (acc ++ [.object ms])
    refine ⟨.object ms :: records, ?_, List.Forall₂.cons hw hall⟩
    simp only [EnvironmentJSONWriter.bodiesLoop, hw, Value.MemberCount, hpos, if_true,
      Value.PushBack, hrun]
    simp

theorem forall₂_index {α β : Type} (R : α → β → Prop) :
    ∀ (xs : List α) (ys : List β), List.Forall₂ R xs ys →
      ∀ (i : Nat) (x : α), xs[i]? = some x → ∃ y, ys[i]? = some y ∧ R x y := by
  intro xs ys h
  induction h with
  | nil => intro i x hx; simp at hx
  | cons hr _ ih =>
    intro i x hx
    cases i with
    | zero =>
      simp only [List.getElem?_cons_zero, Option.some.injEq] at hx
      subst hx
      exact ⟨_, by simp, hr⟩
    | succ i =>
      simp only [List.getElem?_cons_succ] at hx
      obtain ⟨y, hy, hxy⟩ := ih i x hx
      exact ⟨y, by simpa using hy, hxy⟩

theorem _Write_spec (X : Collaborators) (w : EnvironmentJSONWriter) (scene : Scene)
    (listbodies : List KinBodyPtr) (penv : EnvironmentBasePtr)
    (hne : listbodies ≠ [])
    (henv : ∀ p ∈ listbodies, (scene.bodies p).GetEnv = penv) :
    ∃ records, EnvironmentJSONWriter._Write X w scene listbodies
        = .ok (scene, { w with _rEnvironment := (Value.object
            [("unit", .string (scene.envs penv).GetUnit), ("bodies", .array records)]) })
      ∧ records.length = listbodies.length
      ∧ ∀ (i : Nat) (p : KinBodyPtr), listbodies[i]? = some p →
          ∃ r, records[i]? = some r
            ∧ EnvironmentJSONWriter.writeBodyValue X w 1 scene p = .ok (scene, r) := by
  obtain ⟨records, hrun, hall⟩ := bodiesLoop_spec X w 1 scene listbodies []
  refine ⟨records, ?_, hall.length_eq.symm, forall₂_index _ _ _ hall⟩
  cases listbodies with
  | nil => exact absurd rfl hne
  | cons front rest =>
    have hfront : (scene.bodies front).GetEnv = penv := henv front (by simp)
    subst hfront
    have hall2 : (front :: rest).all
        (fun itbody => decide ((scene.bodies itbody).GetEnv = (scene.bodies front).GetEnv))
        = true := by
      rw [List.all_eq_true]
      intro q hq
      simp [henv q hq]
    have hlen : 0 < records.length := by
      rw [← hall.length_eq]; simp
    simp only [EnvironmentJSONWriter._Write, hall2, if_true, Value.SetArray, hrun,
      List.nil_append, Value.Size, hlen, Value.SetObject, SetJsonValueByKey, setMember,
      Value.AddMember]
    simp

theorem writeBodyValue_fields (X : Collaborators) (w : EnvironmentJSONWriter) (u : dReal)
    (scene : Scene) (p : KinBodyPtr) :
    ∃ im es r,
      (EnvironmentJSONWriter.serializeInfoAtRest X w u scene p).2 = .object im
      ∧ EnvironmentJSONWriter.writeBodyValue X w u scene p = .ok (scene, r)
      ∧ es.length = (scene.bodies p).GetDOF
      ∧ (∀ i, i < (scene.bodies p).GetDOF →
          ∃ pJoint, (scene.bodies p).GetJointFromDOFIndex i = some pJoint
            ∧ es[i]? = some (.object [("jointName", .string pJoint.GetName),
                ("jointAxis", .int ((i : Int) - (pJoint.GetDOFIndex : Int))),
                ("value", .real ((scene.bodies p).GetDOFValues.getD i 0))]))
      ∧ r.FindMember "transform" = some (SaveJsonValue (scene.bodies p).GetTransform)
      ∧ (0 < (scene.bodies p).GetDOF → r.FindMember "dofValues" = some (.array es))
      ∧ (¬ 0 < (scene.bodies p).GetDOF →
          r.FindMember "dofValues" = Value.findIn "dofValues" im)
      ∧ (0 < (scene.bodies p).GetGrabbedInfo.length → r.HasMember "grabbed" = true)
      ∧ (0 < (scene.bodies p).GetGrabbedInfo.length → Value.findIn "grabbed" im = none →
          r.FindMember "grabbed" = some (.array ((scene.bodies p).GetGrabbedInfo.map fun g =>
            X.SerializeGrabbedInfo g u w._serializeOptions)))
      ∧ (¬ 0 < (scene.bodies p).GetGrabbedInfo.length →
          r.FindMember "grabbed" = Value.findIn "grabbed" im)
      ∧ (0 < (scene.bodies p).GetGrabbedInfo.length →
          ∃ ms, r = .object (ms ++ [("grabbed",
            .array ((scene.bodies p).GetGrabbedInfo.map fun g =>
              X.SerializeGrabbedInfo g u w._serializeOptions))])) := by
  obtain ⟨im, es, him, hlen, hent, hrun⟩ := writeBodyValue_spec X w u scene p
  refine ⟨im, es, _, him, hrun, hlen, hent, ?_, ?_, ?_, ?_, ?_, ?_, ?_⟩
  · simp only [Value.FindMember]
    split
    · rw [findIn_append_other _ _ _ _ (by decide), findIn_setMember_same]
    · rw [findIn_setMember_same]
  · intro hd
    simp only [Value.FindMember, if_pos hd]
    split
    · rw [findIn_append_other _ _ _ _ (by decide), findIn_setMember_other _ _ _ _ (by decide),
        findIn_setMember_same]
    · rw [findIn_setMember_other _ _ _ _ (by decide), findIn_setMember_same]
  · intro hd
    simp only [Value.FindMember, if_neg hd]
    split
    · rw [findIn_append_other _ _ _ _ (by decide), findIn_setMember_other _ _ _ _ (by decide)]
    · rw [findIn_setMember_other _ _ _ _ (by decide)]
  · intro hg
    simp only [Value.HasMember, Value.FindMember, if_pos hg]
    exact findIn_append_isSome _ _ _
  · intro hg hnone
    simp only [Value.FindMember, if_pos hg]
    apply findIn_append_same
    rw [findIn_setMember_other _ _ _ _ (by decide)]
    split
    · rw [findIn_setMember_other _ _ _ _ (by decide)]; exact hnone
    · exact hnone
  · intro hg
    simp only [Value.FindMember, if_neg hg]
    rw [findIn_setMember_other _ _ _ _ (by decide)]
    split
    · rw [findIn_setMember_other _ _ _ _ (by decide)]
    · rfl
  · intro hg
    simp only [if_pos hg]
    exact ⟨_, rfl⟩

/-! ## The claims on the writer -/

/-- C1. Pose neutrality of the list writer: for a list of members of one
environment `_Write` returns, and afterwards every member, listed or not,
is in the state it had before the call; in particular the root transform
and the DOF values of every listed member are the ones before the call. -/
theorem write_pose_neutral (X : Collaborators) (w : EnvironmentJSONWriter) (scene : Scene)
    (listbodies : List KinBodyPtr) (penv : EnvironmentBasePtr)
    (henv : ∀ p ∈ listbodies, (scene.bodies p).GetEnv = penv) :
    ∃ after w', EnvironmentJSONWriter._Write X w scene listbodies = .ok (after, w')
      ∧ (∀ p, after.bodies p = scene.bodies p)
      ∧ ∀ p ∈ listbodies,
          (after.bodies p).GetTransform = (scene.bodies p).GetTransform
          ∧ (after.bodies p).GetDOFValues = (scene.bodies p).GetDOFValues := by
  by_cases hne : listbodies = []
  · subst hne
    exact ⟨scene, _, rfl, fun _ => rfl, fun _ _ => ⟨rfl, rfl⟩⟩
  · obtain ⟨records, hrun, -, -⟩ := _Write_spec X w scene listbodies penv hne henv
    exact ⟨scene, _, hrun, fun _ => rfl, fun _ _ => ⟨rfl, rfl⟩⟩

/-- Witness for C1: the sample arm, away from its rest pose, listed twice
around the box. -/
theorem write_pose_neutral_witness :
    (∀ p ∈ [1, 2, 1], (sampleScene.bodies p).GetEnv = 7)
    ∧ ∃ after w', EnvironmentJSONWriter._Write sampleCollaborators
          (EnvironmentJSONWriter.ctor [] .null) sampleScene [1, 2, 1] = .ok (after, w')
        ∧ (∀ p, after.bodies p = sampleScene.bodies p)
        ∧ ∀ p ∈ [1, 2, 1],
            (after.bodies p).GetTransform = (sampleScene.bodies p).GetTransform
            ∧ (after.bodies p).GetDOFValues = (sampleScene.bodies p).GetDOFValues :=
  ⟨by decide,
    write_pose_neutral sampleCollaborators (EnvironmentJSONWriter.ctor [] .null) sampleScene
      [1, 2, 1] 7 (by decide)⟩

/-- C4. Fatal contract check: a list with two members of different owning
environments makes `_Write` fail the environment-equality assertion; no
document is returned. -/
theorem write_mixed_environments_fatal (X : Collaborators) (w : EnvironmentJSONWriter)
    (scene : Scene) (listbodies : List KinBodyPtr) (p q : KinBodyPtr)
    (hp : p ∈ listbodies) (hq : q ∈ listbodies)
    (hdiff : (scene.bodies p).GetEnv ≠ (scene.bodies q).GetEnv) :
    EnvironmentJSONWriter._Write X w scene listbodies
      = .error (.assertion "(*itbody)->GetEnv() == penv") := by
  cases listbodies with
  | nil => simp at hp
  | cons front rest =>
    have hall : ¬ ((front :: rest).all
        (fun itbody => decide ((scene.bodies itbody).GetEnv = (scene.bodies front).GetEnv))
        = true) := by
      intro h
      rw [List.all_eq_true] at h
      have h1 := of_decide_eq_true (h p hp)
      have h2 := of_decide_eq_true (h q hq)
      exact hdiff (h1.trans h2.symm)
    simp only [EnvironmentJSONWriter._Write, hall]
    simp

/-- Witness for C4: the arm of environment 7 listed with a box of
environment 8. -/
theorem write_mixed_environments_fatal_witness :
    (1 ∈ [1, 3] ∧ 3 ∈ [1, 3]
      ∧ (sampleScene.bodies 1).GetEnv ≠ (sampleScene.bodies 3).GetEnv)
    ∧ EnvironmentJSONWriter._Write sampleCollaborators
        (EnvironmentJSONWriter.ctor [] .null) sampleScene [1, 3]
      = .error (.assertion "(*itbody)->GetEnv() == penv") :=
  ⟨⟨by decide, by decide, by decide⟩,
    write_mixed_environments_fatal sampleCollaborators (EnvironmentJSONWriter.ctor [] .null)
      sampleScene [1, 3] 1 3 (by decide) (by decide) (by decide)⟩

/-- C6. Empty input: writing the empty list returns, leaves the scene
alone and makes the target an empty object, with neither a "bodies" nor a
"unit" key, whatever the attributes and whatever the target held. -/
theorem write_empty_list (X : Collaborators) (atts : AttributesList) (target : Value)
    (scene : Scene) :
    EnvironmentJSONWriter.Write X (EnvironmentJSONWriter.ctor atts target) scene []
      = .ok (scene, { EnvironmentJSONWriter.ctor atts target with
          _rEnvironment := (Value.object []) })
    ∧ RaveWriteJSON X scene [] target atts = .ok (scene, .object [])
    ∧ (Value.object []).HasMember "bodies" = false
    ∧ (Value.object []).HasMember "unit" = false :=
  ⟨rfl, rfl, rfl, rfl⟩

/-- C10. One record per member, in input order: for a non-empty list of one
environment the document is the object with "unit" and "bodies"; the
bodies array has as many records as the list has members, the i-th record
is the one written for the i-th member, and its "transform" is the actual
root pose of that member; no record is dropped. -/
theorem write_one_record_per_member (X : Collaborators) (w : EnvironmentJSONWriter)
    (scene : Scene) (listbodies : List KinBodyPtr) (penv : EnvironmentBasePtr)
    (hne : listbodies ≠ [])
    (henv : ∀ p ∈ listbodies, (scene.bodies p).GetEnv = penv) :
    ∃ records, EnvironmentJSONWriter._Write X w scene listbodies
        = .ok (scene, { w with _rEnvironment := (Value.object
            [("unit", .string (scene.envs penv).GetUnit), ("bodies", .array records)]) })
      ∧ records.length = listbodies.length
      ∧ ∀ (i : Nat) (p : KinBodyPtr), listbodies[i]? = some p →
          ∃ r, records[i]? = some r
            ∧ EnvironmentJSONWriter.writeBodyValue X w 1 scene p = .ok (scene, r)
            ∧ r.FindMember "transform" = some (SaveJsonValue (scene.bodies p).GetTransform) := by
  obtain ⟨records, hrun, hlen, hrec⟩ := _Write_spec X w scene listbodies penv hne henv
  refine ⟨records, hrun, hlen, ?_⟩
  intro i p hi
  obtain ⟨r, hr, hw⟩ := hrec i p hi
  obtain ⟨im, es, r', -, hw', -, -, ht, -⟩ := writeBodyValue_fields X w 1 scene p
  have hrr : r = r' := by
    have := hw.symm.trans hw'
    simpa using this
  subst hrr
  exact ⟨r, hr, hw, ht⟩

/-- Witness for C10: the sample arm and box. -/
theorem write_one_record_per_member_witness :
    ([1, 2] ≠ ([] : List KinBodyPtr) ∧ ∀ p ∈ [1, 2], (sampleScene.bodies p).GetEnv = 7)
    ∧ ∃ records, EnvironmentJSONWriter._Write sampleCollaborators
          (EnvironmentJSONWriter.ctor [] .null) sampleScene [1, 2]
        = .ok (sampleScene, { EnvironmentJSONWriter.ctor [] .null with
            _rEnvironment := (Value.object
              [("unit", .string (sampleScene.envs 7).GetUnit), ("bodies", .array records)]) })
      ∧ records.length = [1, 2].length
      ∧ ∀ (i : Nat) (p : KinBodyPtr), [1, 2][i]? = some p →
          ∃ r, records[i]? = some r
            ∧ EnvironmentJSONWriter.writeBodyValue sampleCollaborators
                (EnvironmentJSONWriter.ctor [] .null) 1 sampleScene p = .ok (sampleScene, r)
            ∧ r.FindMember "transform"
                = some (SaveJsonValue (sampleScene.bodies p).GetTransform) :=
  ⟨⟨by decide, by decide⟩,
    write_one_record_per_member sampleCollaborators (EnvironmentJSONWriter.ctor [] .null)
      sampleScene [1, 2] 7 (by decide) (by decide)⟩

/-- C3. DOF/joint mapping: for a listed member with n > 0 degrees of
freedom the record has a "dofValues" array of n entries in DOF-index order;
entry k names the joint that owns DOF k, gives k minus the base DOF index
of that joint as the axis, and gives the k-th DOF value the member had
before the call. For a member with two joints, the first with one axis and
the second with two, the entries carry the axes 0, 0, 1 under the names of
the first, second and second joint. -/
theorem write_dofValues_mapping (X : Collaborators) (w : EnvironmentJSONWriter)
    (scene : Scene) (listbodies : List KinBodyPtr) (penv : EnvironmentBasePtr)
    (henv : ∀ p ∈ listbodies, (scene.bodies p).GetEnv = penv)
    (i : Nat) (p : KinBodyPtr) (hi : listbodies[i]? = some p)
    (hdof : 0 < (scene.bodies p).GetDOF) :
    ∃ w' records r entries,
      EnvironmentJSONWriter._Write X w scene listbodies = .ok (scene, w')
      ∧ w'._rEnvironment.FindMember "bodies" = some (.array records)
      ∧ records[i]? = some r
      ∧ r.FindMember "dofValues" = some (.array entries)
      ∧ entries.length = (scene.bodies p).GetDOF
      ∧ (∀ k, k < (scene.bodies p).GetDOF →
          ∃ pJoint, (scene.bodies p).GetJointFromDOFIndex k = some pJoint
            ∧ pJoint.joint ∈ (scene.bodies p)._vecjoints
            ∧ pJoint.GetDOFIndex ≤ k ∧ k < pJoint.GetDOFIndex + pJoint.joint.values.length
            ∧ (scene.bodies p).GetDOFValues.getD k 0
                = pJoint.joint.values.getD (k - pJoint.GetDOFIndex) 0
            ∧ entries[k]? = some (.object [("jointName", .string pJoint.GetName),
                ("jointAxis", .int ((k : Int) - (pJoint.GetDOFIndex : Int))),
                ("value", .real ((scene.bodies p).GetDOFValues.getD k 0))]))
      ∧ (∀ (first second : String) (x y z : dReal),
          (scene.bodies p)._vecjoints = [⟨first, [x]⟩, ⟨second, [y, z]⟩] →
          entries =
            [.object [("jointName", .string first), ("jointAxis", .int 0), ("value", .real x)],
              .object [("jointName", .string second), ("jointAxis", .int 0), ("value", .real y)],
              .object [("jointName", .string second), ("jointAxis", .int 1),
                ("value", .real z)]]) := by
  have hne : listbodies ≠ [] := by
    intro h; subst h; simp at hi
  obtain ⟨records, hrun, -, hrec⟩ := _Write_spec X w scene listbodies penv hne henv
  obtain ⟨r, hr, hw⟩ := hrec i p hi
  obtain ⟨im, es, r', -, hw', hlen, hent, -, hd, -⟩ := writeBodyValue_fields X w 1 scene p
  have hrr : r = r' := by
    have := hw.symm.trans hw'
    simpa using this
  subst hrr
  have hown : ∀ k, k < (scene.bodies p).GetDOF →
      ∃ pJoint, (scene.bodies p).GetJointFromDOFIndex k = some pJoint
        ∧ pJoint.joint ∈ (scene.bodies p)._vecjoints
        ∧ pJoint.GetDOFIndex ≤ k ∧ k < pJoint.GetDOFIndex + pJoint.joint.values.length
        ∧ (scene.bodies p).GetDOFValues.getD k 0
            = pJoint.joint.values.getD (k - pJoint.GetDOFIndex) 0
        ∧ es[k]? = some (.object [("jointName", .string pJoint.GetName),
            ("jointAxis", .int ((k : Int) - (pJoint.GetDOFIndex : Int))),
            ("value", .real ((scene.bodies p).GetDOFValues.getD k 0))]) := by
    intro k hk
    obtain ⟨pJoint, hj, he⟩ := hent k hk
    obtain ⟨q, hq, hm, hlo, hhi, hv⟩ :=
      ownerFrom_total (scene.bodies p)._vecjoints 0 k (Nat.zero_le _)
        (by simpa [KinBody.GetDOF] using hk)
    have hpq : q = pJoint := by
      have := hq.symm.trans hj
      simpa using this
    subst hpq
    exact ⟨q, hj, hm, hlo, hhi, by simpa [KinBody.GetDOFValues] using hv, he⟩
  refine ⟨_, records, r, es, hrun, rfl, hr, hd hdof, hlen, hown, ?_⟩
  intro first second x y z hj
  have h3 : (scene.bodies p).GetDOF = 3 := by simp [KinBody.GetDOF, hj]
  have hvals : (scene.bodies p).GetDOFValues = [x, y, z] := by
    simp [KinBody.GetDOFValues, hj]
  obtain ⟨j0, hj0, h0⟩ := hent 0 (by omega)
  obtain ⟨j1, hj1, h1⟩ := hent 1 (by omega)
  obtain ⟨j2, hj2, h2⟩ := hent 2 (by omega)
  simp only [KinBody.GetJointFromDOFIndex, KinBody.ownerFrom, hj] at hj0 hj1 hj2
  simp at hj0 hj1 hj2
  subst hj0 hj1 hj2
  rw [hvals] at h0 h1 h2
  rw [h3] at hlen
  match es, hlen, h0, h1, h2 with
  | [e0, e1, e2], _, h0, h1, h2 =>
    simp at h0 h1 h2
    subst h0 h1 h2
    simp [JointPtr.GetName, JointPtr.GetDOFIndex]

/-- Witness for C3: the sample arm, listed after the box, has the joints
"shoulder" (one axis) and "wrist" (two axes) and the DOF values 5, 6, 7. -/
theorem write_dofValues_mapping_witness :
    ((∀ p ∈ [2, 1], (sampleScene.bodies p).GetEnv = 7)
      ∧ [2, 1][1]? = some 1 ∧ 0 < (sampleScene.bodies 1).GetDOF)
    ∧ ∃ w' records r,
        EnvironmentJSONWriter._Write sampleCollaborators
          (EnvironmentJSONWriter.ctor [] .null) sampleScene [2, 1] = .ok (sampleScene, w')
        ∧ w'._rEnvironment.FindMember "bodies" = some (.array records)
        ∧ records[1]? = some r
        ∧ r.FindMember "dofValues" = some (.array
            [.object [("jointName", .string "shoulder"), ("jointAxis", .int 0),
                ("value", .real 5)],
              .object [("jointName", .string "wrist"), ("jointAxis", .int 0),
                ("value", .real 6)],
              .object [("jointName", .string "wrist"), ("jointAxis", .int 1),
                ("value", .real 7)]]) := by
  refine ⟨⟨by decide, by decide, by decide⟩, ?_⟩
  obtain ⟨w', records, r, entries, h1, h2, h3, h4, -, -, h7⟩ :=
    write_dofValues_mapping sampleCollaborators (EnvironmentJSONWriter.ctor [] .null)
      sampleScene [2, 1] 7 (by decide) 1 1 (by decide) (by decide)
  have he := h7 "shoulder" "wrist" 5 6 7 rfl
  subst he
  exact ⟨w', records, r, h1, h2, h3, h4⟩

/-- C9. Optional-field omission: every listed member of a list of one
environment gets its record without error. The writer puts a "dofValues"
key in the record exactly when the member has a degree of freedom, and
appends a "grabbed" member, one serialized entry per descriptor in list
order, exactly when the grabbed list is non-empty: the record has either key
if and only if the writer put it there or the structural description of the
member brought it. Hence, when the structural description carries
"dofValues" only for a member with a degree of freedom, the record has
"dofValues" if and only if the member has a degree of freedom; and when it
carries "grabbed" only for a member that holds something, the record has
"grabbed" if and only if the grabbed list is non-empty. -/
theorem write_optional_fields (X : Collaborators) (w : EnvironmentJSONWriter)
    (scene : Scene) (listbodies : List KinBodyPtr) (penv : EnvironmentBasePtr)
    (henv : ∀ p ∈ listbodies, (scene.bodies p).GetEnv = penv)
    (i : Nat) (p : KinBodyPtr) (hi : listbodies[i]? = some p) :
    ∃ w' records r,
      EnvironmentJSONWriter._Write X w scene listbodies = .ok (scene, w')
      ∧ w'._rEnvironment.FindMember "bodies" = some (.array records)
      ∧ records[i]? = some r
      ∧ (r.HasMember "dofValues" = true ↔
          (0 < (scene.bodies p).GetDOF
            ∨ (EnvironmentJSONWriter.serializeInfoAtRest X w 1 scene p).2.HasMember "dofValues"
                = true))
      ∧ (r.HasMember "grabbed" = true ↔
          ((scene.bodies p).GetGrabbedInfo ≠ []
            ∨ (EnvironmentJSONWriter.serializeInfoAtRest X w 1 scene p).2.HasMember "grabbed"
                = true))
      ∧ ((scene.bodies p).GetGrabbedInfo ≠ [] →
          ∃ ms, r = .object (ms ++ [("grabbed",
            .array ((scene.bodies p).GetGrabbedInfo.map fun g =>
              X.SerializeGrabbedInfo g 1 w._serializeOptions))]))
      ∧ (((EnvironmentJSONWriter.serializeInfoAtRest X w 1 scene p).2.HasMember "dofValues"
            = true → 0 < (scene.bodies p).GetDOF) →
          (r.HasMember "dofValues" = true ↔ 0 < (scene.bodies p).GetDOF))
      ∧ (((EnvironmentJSONWriter.serializeInfoAtRest X w 1 scene p).2.HasMember "grabbed"
            = true → (scene.bodies p).GetGrabbedInfo ≠ []) →
          (r.HasMember "grabbed" = true ↔ (scene.bodies p).GetGrabbedInfo ≠ []))
      ∧ ((EnvironmentJSONWriter.serializeInfoAtRest X w 1 scene p).2.HasMember "grabbed"
            = false → (scene.bodies p).GetGrabbedInfo ≠ [] →
          r.FindMember "grabbed"
            = some (.array ((scene.bodies p).GetGrabbedInfo.map fun g =>
                X.SerializeGrabbedInfo g 1 w._serializeOptions))) := by
  have hne : listbodies ≠ [] := by
    intro h; subst h; simp at hi
  obtain ⟨records, hrun, -, hrec⟩ := _Write_spec X w scene listbodies penv hne henv
  obtain ⟨r, hr, hw⟩ := hrec i p hi
  obtain ⟨im, es, r', him, hw', -, -, -, hd1, hd0, hg1, hg1', hg0, hgl⟩ :=
    writeBodyValue_fields X w 1 scene p
  have hrr : r = r' := by
    have := hw.symm.trans hw'
    simpa using this
  subst hrr
  have hpos : ∀ l : List GrabbedInfo, l ≠ [] ↔ 0 < l.length := fun l =>
    List.length_pos.symm
  have hinfo : ∀ key, (EnvironmentJSONWriter.serializeInfoAtRest X w 1 scene p).2.HasMember key
      = (Value.findIn key im).isSome := by
    intro key
    rw [him]
    rfl
  have hdof : r.HasMember "dofValues" = true ↔
      (0 < (scene.bodies p).GetDOF
        ∨ (EnvironmentJSONWriter.serializeInfoAtRest X w 1 scene p).2.HasMember "dofValues"
            = true) := by
    rw [hinfo]
    by_cases hd : 0 < (scene.bodies p).GetDOF
    · simp [Value.HasMember, hd1 hd, hd]
    · simp [Value.HasMember, hd0 hd, hd]
  have hgrab : r.HasMember "grabbed" = true ↔
      ((scene.bodies p).GetGrabbedInfo ≠ []
        ∨ (EnvironmentJSONWriter.serializeInfoAtRest X w 1 scene p).2.HasMember "grabbed"
            = true) := by
    rw [hinfo, hpos]
    by_cases hg : 0 < (scene.bodies p).GetGrabbedInfo.length
    · simp only [hg1 hg, hg, true_or]
    · simp only [Value.HasMember, hg0 hg, hg, false_or]
  refine ⟨_, records, r, hrun, rfl, hr, hdof, hgrab, fun hg => hgl ((hpos _).1 hg), ?_, ?_, ?_⟩
  · intro h
    rw [hdof]
    exact ⟨fun h' => h'.elim id h, Or.inl⟩
  · intro h
    rw [hgrab]
    exact ⟨fun h' => h'.elim id h, Or.inl⟩
  · intro h hg
    rw [hinfo] at h
    have hnone : Value.findIn "grabbed" im = none := by
      cases h' : Value.findIn "grabbed" im with
      | none => rfl
      | some v => rw [h'] at h; exact Bool.noConfusion h
    exact hg1' ((hpos _).1 hg) hnone

/-- Witness for C9: the sample box, with no joint and holding nothing,
listed after the arm; its record has neither key. -/
theorem write_optional_fields_witness :
    ((∀ p ∈ [1, 2], (sampleScene.bodies p).GetEnv = 7) ∧ [1, 2][1]? = some 2
      ∧ ((EnvironmentJSONWriter.serializeInfoAtRest sampleCollaborators
          (EnvironmentJSONWriter.ctor [] .null) 1 sampleScene 2).2.HasMember "dofValues" = true
          → 0 < (sampleScene.bodies 2).GetDOF)
      ∧ ((EnvironmentJSONWriter.serializeInfoAtRest sampleCollaborators
          (EnvironmentJSONWriter.ctor [] .null) 1 sampleScene 2).2.HasMember "grabbed" = true
          → (sampleScene.bodies 2).GetGrabbedInfo ≠ []))
    ∧ ∃ w' records r,
        EnvironmentJSONWriter._Write sampleCollaborators
          (EnvironmentJSONWriter.ctor [] .null) sampleScene [1, 2] = .ok (sampleScene, w')
        ∧ w'._rEnvironment.FindMember "bodies" = some (.array records)
        ∧ records[1]? = some r
        ∧ r.HasMember "dofValues" = false
        ∧ r.HasMember "grabbed" = false := by
  have hA : (EnvironmentJSONWriter.serializeInfoAtRest sampleCollaborators
      (EnvironmentJSONWriter.ctor [] .null) 1 sampleScene 2).2.HasMember "dofValues" = true
      → 0 < (sampleScene.bodies 2).GetDOF := by decide
  have hB : (EnvironmentJSONWriter.serializeInfoAtRest sampleCollaborators
      (EnvironmentJSONWriter.ctor [] .null) 1 sampleScene 2).2.HasMember "grabbed" = true
      → (sampleScene.bodies 2).GetGrabbedInfo ≠ [] := by decide
  refine ⟨⟨by decide, by decide, hA, hB⟩, ?_⟩
  obtain ⟨w', records, r, h1, h2, h3, -, -, -, h6, h7, -⟩ :=
    write_optional_fields sampleCollaborators (EnvironmentJSONWriter.ctor [] .null)
      sampleScene [1, 2] 7 (by decide) 1 2 (by decide)
  refine ⟨w', records, r, h1, h2, h3, ?_, ?_⟩
  · cases h : r.HasMember "dofValues" with
    | false => rfl
    | true => exact absurd ((h6 hA).1 h) (by decide)
  · cases h : r.HasMember "grabbed" with
    | false => rfl
    | true => exact absurd ((h7 hB).1 h) (by decide)

/-- C5. Encryption output containment. Whenever the writer returns a
document, `RaveWriteEncryptedStream` appends to the destination exactly the
ciphertext `GpgEncrypt` returns for the encoded document and the first
"gpgkey" attribute, and logs nothing, if `GpgEncrypt` succeeds; if it fails,
the call still returns, the destination is unchanged and the error
diagnostic is logged. When the writer is fatal the call is fatal before
`GpgEncrypt` is consulted. For a list of one environment the writer
returns. `RaveWriteEncryptedMemory` hands over what that stream call wrote
to a fresh stream. -/
theorem encrypted_stream_output (X : Collaborators) (scene : Scene)
    (listbodies : List KinBodyPtr) (os output : String) (log : List String)
    (atts : AttributesList) (mimeType : MimeType) :
    (∀ after jw,
      (EnvironmentJSONWriter.ctor atts .null).Write X scene listbodies = .ok (after, jw) →
      (∀ ciphertext,
        X.GpgEncrypt
            (match mimeType with
              | .JSON => X.DumpJson jw._rEnvironment
              | .MsgPack => X.DumpMsgPack jw._rEnvironment)
            (findKeyName atts) = some ciphertext →
          RaveWriteEncryptedStream X scene listbodies os log atts mimeType
            = .ok ⟨after, os ++ ciphertext, log⟩
          ∧ RaveWriteEncryptedMemory X scene listbodies output log atts mimeType
            = .ok ⟨after, ciphertext, log⟩)
      ∧ (X.GpgEncrypt
            (match mimeType with
              | .JSON => X.DumpJson jw._rEnvironment
              | .MsgPack => X.DumpMsgPack jw._rEnvironment)
            (findKeyName atts) = none →
          RaveWriteEncryptedStream X scene listbodies os log atts mimeType
            = .ok ⟨after, os, log ++ ["Failed to encrypt file, check GPG keys."]⟩
          ∧ RaveWriteEncryptedMemory X scene listbodies output log atts mimeType
            = .ok ⟨after, "", log ++ ["Failed to encrypt file, check GPG keys."]⟩))
    ∧ (∀ e, (EnvironmentJSONWriter.ctor atts .null).Write X scene listbodies = .error e →
        RaveWriteEncryptedStream X scene listbodies os log atts mimeType = .error e)
    ∧ (∀ penv, (∀ p ∈ listbodies, (scene.bodies p).GetEnv = penv) →
        ∃ jw, (EnvironmentJSONWriter.ctor atts .null).Write X scene listbodies
          = .ok (scene, jw)) := by
  refine ⟨?_, ?_, ?_⟩
  · intro after jw hw
    constructor
    · intro ciphertext hc
      cases mimeType <;>
        simp only [RaveWriteEncryptedMemory, RaveWriteEncryptedStream, RaveWriteJSONStream,
          RaveWriteMsgPackStream, hw, String.empty_append] at hc ⊢ <;>
        simp [hc]
    · intro hc
      cases mimeType <;>
        simp only [RaveWriteEncryptedMemory, RaveWriteEncryptedStream, RaveWriteJSONStream,
          RaveWriteMsgPackStream, hw, String.empty_append] at hc ⊢ <;>
        simp [hc]
  · intro e hw
    cases mimeType <;>
      simp only [RaveWriteEncryptedStream, RaveWriteJSONStream, RaveWriteMsgPackStream, hw]
  · intro penv henv
    by_cases hne : listbodies = []
    · subst hne
      exact ⟨_, rfl⟩
    · obtain ⟨records, hrun, -, -⟩ :=
        _Write_spec X (EnvironmentJSONWriter.ctor atts .null) scene listbodies penv hne henv
      exact ⟨_, hrun⟩

/-- Witness for C5: the sample arm and box written to a stream that already
holds "old:", once with the known key "alice" and the text encoding, once
with the unknown key "mallory" and the binary encoding. -/
theorem encrypted_stream_output_witness :
    (∀ p ∈ [1, 2], (sampleScene.bodies p).GetEnv = 7)
    ∧ (∃ ciphertext,
        RaveWriteEncryptedStream sampleCollaborators sampleScene [1, 2] "old:" []
          [("gpgkey", "alice")] .JSON = .ok ⟨sampleScene, "old:" ++ ciphertext, []⟩)
    ∧ RaveWriteEncryptedStream sampleCollaborators sampleScene [1, 2] "old:" []
        [("gpgkey", "mallory")] .MsgPack
      = .ok ⟨sampleScene, "old:", ["Failed to encrypt file, check GPG keys."]⟩ := by
  have henv : ∀ p ∈ [1, 2], (sampleScene.bodies p).GetEnv = 7 := by decide
  refine ⟨henv, ?_, ?_⟩
  · have h := encrypted_stream_output sampleCollaborators sampleScene [1, 2] "old:" "" []
      [("gpgkey", "alice")] .JSON
    obtain ⟨jw, hw⟩ := h.2.2 7 henv
    exact ⟨_, ((h.1 sampleScene jw hw).1 _ rfl).1⟩
  · have h := encrypted_stream_output sampleCollaborators sampleScene [1, 2] "old:" "" []
      [("gpgkey", "mallory")] .MsgPack
    obtain ⟨jw, hw⟩ := h.2.2 7 henv
    exact ((h.1 sampleScene jw hw).2 rfl).1

end OpenRAVE
